import Mathlib

/-!
Verification of the software-GPU transform unit (GPU/Software/TransformUnit.cpp)
and the thread pool (ext/native/thread/threadpool.cpp) of this repository.

Shallow embedding conventions:
  - C float arithmetic is idealized over the rationals; the only float-to-int
    conversions the code performs are modelled by truncation toward zero.
  - Machine integers are modelled as Nat/Int with explicit reductions modulo
    a power of two at the points where the C code wraps (u16 and u32 casts),
    and bit masks by powers of two minus one are written as the equivalent
    remainder operation.
  - The external vertex decoder (GLES/VertexDecoder, declared outside this
    repository's sources) is modelled per the specification: a vertex-format
    descriptor exposing hasUV/hasNormal/hasColor0/hasColor1, plus one decoded
    record per index, whose fields the per-field accessors read.
-/

/-- Truncation toward zero of a rational, the conversion C performs when a
float is converted to an integer type. -/
def truncQ (q : ℚ) : ℤ := if 0 ≤ q then ⌊q⌋ else ⌈q⌉

/-- Three-component float vector (Vec3 of the math library). -/
structure Vec3Q where
  x : ℚ
  y : ℚ
  z : ℚ
  deriving DecidableEq

/-- Four-component float vector (Vec4 of the math library). -/
structure Vec4Q where
  x : ℚ
  y : ℚ
  z : ℚ
  w : ℚ
  deriving DecidableEq

/-- Coordinates in model space (tagged wrapper in the source). -/
abbrev ModelCoords := Vec3Q

/-- Coordinates in world space. -/
abbrev WorldCoords := Vec3Q

/-- Coordinates in view space. -/
abbrev ViewCoords := Vec3Q

/-- Homogeneous clip-space coordinates. -/
abbrev ClipCoords := Vec4Q

/-- Fixed-point screen coordinates (held in floats before the u32 cast). -/
structure ScreenCoords where
  x : ℚ
  y : ℚ
  z : ℚ
  deriving DecidableEq

/-- Drawing-region coordinates. Modelled from the spec: the field types of
DrawingCoords live in TransformUnit.h, which is not among the sources; the
spec treats the through-mode assignment drawpos = (pos.x, pos.y) as exact,
so the components are modelled as rationals holding values exactly. -/
structure DrawingCoords where
  x : ℚ
  y : ℚ
  deriving DecidableEq

def Vec3Q.add (a b : Vec3Q) : Vec3Q := ⟨a.x + b.x, a.y + b.y, a.z + b.z⟩

def Vec3Q.sub (a b : Vec3Q) : Vec3Q := ⟨a.x - b.x, a.y - b.y, a.z - b.z⟩

/-- Euclidean length of a Vec3. Modelled from the spec: the float square
root is idealized by the rational square-root approximation; no verified
claim depends on its value. -/
def Vec3Q.length (a : Vec3Q) : ℚ := Rat.sqrt (a.x * a.x + a.y * a.y + a.z * a.z)

/-- Componentwise division by the length, as in worldnormal /= Length. -/
def Vec3Q.divLen (a : Vec3Q) : Vec3Q :=
  ⟨a.x / a.length, a.y / a.length, a.z / a.length⟩

/-- Application of the 3x3 linear part of a 4x3 PSP matrix (rows are the
basis vectors, elements 0..8). Modelled from the spec: the Mat3x3 layout
comes from the math headers, which are not among the sources. -/
def mat3Apply (m : Fin 12 → ℚ) (v : Vec3Q) : Vec3Q :=
  ⟨m 0 * v.x + m 3 * v.y + m 6 * v.z,
   m 1 * v.x + m 4 * v.y + m 7 * v.z,
   m 2 * v.x + m 5 * v.y + m 8 * v.z⟩

/-- Application of a 4x4 projection matrix to a homogeneous vector.
Modelled from the spec: the Mat4x4 layout comes from the math headers. -/
def mat4Apply (m : Fin 16 → ℚ) (v : Vec4Q) : Vec4Q :=
  ⟨m 0 * v.x + m 4 * v.y + m 8 * v.z + m 12 * v.w,
   m 1 * v.x + m 5 * v.y + m 9 * v.z + m 13 * v.w,
   m 2 * v.x + m 6 * v.y + m 10 * v.z + m 14 * v.w,
   m 3 * v.x + m 7 * v.y + m 11 * v.z + m 15 * v.w⟩

/-- Read-only snapshot of the GPU register state (gstate) used by the
transform unit during one draw call. The viewport registers are stored as
24-bit floats in the hardware; getFloat24 (GPUState.h, not among the
sources) reconstructs their value, so they are modelled here by the decoded
rational value directly. textureMapEnable is a register word tested for
truthiness, modelled as a natural number. -/
structure GPUState where
  worldMatrix : Fin 12 → ℚ
  viewMatrix : Fin 12 → ℚ
  projMatrix : Fin 16 → ℚ
  viewportx1 : ℚ
  viewportx2 : ℚ
  viewporty1 : ℚ
  viewporty2 : ℚ
  viewportz1 : ℚ
  viewportz2 : ℚ
  offsetx : ℕ
  offsety : ℕ
  materialdiffuse : ℕ
  materialalpha : ℕ
  textureMapEnable : ℕ
  modeClear : Bool
  modeThrough : Bool

/-- ModelToWorld: multiply by the world matrix linear part and add the
translation packed in elements 9..11. -/
def TransformUnit.ModelToWorld (g : GPUState) (coords : ModelCoords) : WorldCoords :=
  (mat3Apply g.worldMatrix coords).add ⟨g.worldMatrix 9, g.worldMatrix 10, g.worldMatrix 11⟩

/-- WorldToView: same shape using the view matrix. -/
def TransformUnit.WorldToView (g : GPUState) (coords : WorldCoords) : ViewCoords :=
  (mat3Apply g.viewMatrix coords).add ⟨g.viewMatrix 9, g.viewMatrix 10, g.viewMatrix 11⟩

/-- ViewToClip: homogeneous 4x4 projection multiply on (x, y, z, 1). -/
def TransformUnit.ViewToClip (g : GPUState) (coords : ViewCoords) : ClipCoords :=
  mat4Apply g.projMatrix ⟨coords.x, coords.y, coords.z, 1⟩

/-- ClipToScreen: perspective divide by w, viewport remap, times 16. -/
def TransformUnit.ClipToScreen (g : GPUState) (coords : ClipCoords) : ScreenCoords :=
  ⟨(coords.x * g.viewportx1 / coords.w + g.viewportx2) * 16,
   (coords.y * g.viewporty1 / coords.w + g.viewporty2) * 16,
   (coords.z * g.viewportz1 / coords.w + g.viewportz2) * 16⟩

/-- The (u32) cast applied to a screen coordinate float: truncation toward
zero, wrapped to 32 bits. -/
def toU32 (q : ℚ) : ℕ := ((truncQ q) % 4294967296).toNat

/-- Unsigned 32-bit subtraction: wraps modulo 2^32. -/
def u32sub (a b : ℕ) : ℕ :=
  (a % 4294967296 + (4294967296 - b % 4294967296)) % 4294967296

/-- ScreenToDrawing: subtract the 16-bit-masked drawing offset register from
the u32 screen coordinate (wrapping subtraction), divide by 16, and mask to
10 bits; & 0xffff and & 0x3ff are written as remainders mod 2^16 and 2^10. -/
def TransformUnit.ScreenToDrawing (g : GPUState) (coords : ScreenCoords) : DrawingCoords :=
  ⟨((u32sub (toU32 coords.x) (g.offsetx % 65536)) / 16 % 1024 : ℕ),
   ((u32sub (toU32 coords.y) (g.offsety % 65536)) / 16 % 1024 : ℕ)⟩

/-- Capability bits of the decoded vertex format (DecVtxFormat). Modelled
from the spec: the external decoder exposes boolean capability queries
hasUV/hasNormal/hasColor0/hasColor1. -/
structure VertexFormat where
  hasUV : Bool
  hasNormal : Bool
  hasColor0 : Bool
  hasColor1 : Bool
  deriving DecidableEq

/-- One decoded vertex record. Modelled from the spec: the external decoder
yields one canonical in-memory vertex record per index, read through the
typed accessors ReadPos/ReadUV/ReadNrm/ReadColor0/ReadColor1. -/
structure DecodedVertex where
  pos : ℚ × ℚ × ℚ
  uv : ℚ × ℚ
  nrm : ℚ × ℚ × ℚ
  color0 : ℚ × ℚ × ℚ × ℚ
  color1 : ℚ × ℚ × ℚ
  deriving DecidableEq

/-- One fully assembled vertex (VertexData). Attribute fields the source
assigns only conditionally are modelled as Option, none standing for the
default-constructed/untouched field. The lit flag records whether the
external lighting stage was invoked on this vertex. -/
structure VertexData where
  texturecoords : Option (ℚ × ℚ) := none
  normal : Option Vec3Q := none
  worldnormal : Option Vec3Q := none
  color0 : ℤ × ℤ × ℤ × ℤ := (0, 0, 0, 0)
  color1 : ℤ × ℤ × ℤ := (0, 0, 0)
  worldpos : Option Vec3Q := none
  viewpos : Option Vec3Q := none
  clippos : Option Vec4Q := none
  drawpos : DrawingCoords := ⟨0, 0⟩
  lit : Bool := false
  deriving DecidableEq

/-- Lighting stage. Modelled from the spec: ApplyLighting is an external
collaborator mutating the lit color fields of an already transformed
vertex; the model records only that it was invoked. -/
def Lighting.Process (v : VertexData) : VertexData := { v with lit := true }

/-- Assembly of a single vertex by the loop body of SubmitPrimitive: the
conditional attribute reads, the color0 material fallback, the color1 read
(which the source performs through the ReadColor0 accessor), and either the
full transform chain plus lighting or the through-mode bypass. -/
def assembleVertex (g : GPUState) (fmt : VertexFormat) (verts : ℤ → DecodedVertex)
    (idx : ℤ) : VertexData :=
  let v := verts idx
  let texturecoords : Option (ℚ × ℚ) :=
    if !g.modeClear && (g.textureMapEnable != 0) && fmt.hasUV then some v.uv else none
  let normal : Option Vec3Q :=
    if fmt.hasNormal then some ⟨v.nrm.1, v.nrm.2.1, v.nrm.2.2⟩ else none
  let color0 : ℤ × ℤ × ℤ × ℤ :=
    if fmt.hasColor0 then
      (truncQ (v.color0.1 * 255), truncQ (v.color0.2.1 * 255),
       truncQ (v.color0.2.2.1 * 255), truncQ (v.color0.2.2.2 * 255))
    else
      ((g.materialdiffuse % 256 : ℕ), (g.materialdiffuse / 256 % 256 : ℕ),
       (g.materialdiffuse / 65536 % 256 : ℕ), (g.materialalpha % 256 : ℕ))
  let color1 : ℤ × ℤ × ℤ :=
    if fmt.hasColor1 then
      (truncQ (v.color0.1 * 255), truncQ (v.color0.2.1 * 255), truncQ (v.color0.2.2.1 * 255))
    else (0, 0, 0)
  if !g.modeThrough then
    let mcoords : ModelCoords := ⟨v.pos.1, v.pos.2.1, v.pos.2.2⟩
    let worldpos := TransformUnit.ModelToWorld g mcoords
    let viewpos := TransformUnit.WorldToView g worldpos
    let clippos := TransformUnit.ViewToClip g viewpos
    let drawpos := TransformUnit.ScreenToDrawing g (TransformUnit.ClipToScreen g clippos)
    let worldnormal : Option Vec3Q :=
      match normal with
      | some n =>
        some (Vec3Q.divLen ((TransformUnit.ModelToWorld g n).sub
          ⟨g.worldMatrix 9, g.worldMatrix 10, g.worldMatrix 11⟩))
      | none => none
    Lighting.Process
      { texturecoords := texturecoords, normal := normal, worldnormal := worldnormal,
        color0 := color0, color1 := color1,
        worldpos := some worldpos, viewpos := some viewpos, clippos := some clippos,
        drawpos := ⟨drawpos.x, drawpos.y⟩, lit := false }
  else
    { texturecoords := texturecoords, normal := normal, worldnormal := none,
      color0 := color0, color1 := color1,
      worldpos := none, viewpos := none, clippos := none,
      drawpos := ⟨v.pos.1, v.pos.2.1⟩, lit := false }

/-- GE primitive type constants (ge_constants.h). -/
def GE_PRIM_POINTS : ℕ := 0

/-- GE primitive type: lines. -/
def GE_PRIM_LINES : ℕ := 1

/-- GE primitive type: line strip (unsupported by this core). -/
def GE_PRIM_LINE_STRIP : ℕ := 2

/-- GE primitive type: triangle list. -/
def GE_PRIM_TRIANGLES : ℕ := 3

/-- GE primitive type: rectangles (sprites). -/
def GE_PRIM_RECTANGLES : ℕ := 6

/-- Vertices per primitive as established by the if-chain at the start of
SubmitPrimitive; vtcs_per_prim is left at its initial value 0 for every
unsupported primitive type. -/
def vtcsPerPrim (prim_type : ℕ) : ℕ :=
  if prim_type = GE_PRIM_POINTS then 1
  else if prim_type = GE_PRIM_LINES then 2
  else if prim_type = GE_PRIM_TRIANGLES then 3
  else if prim_type = GE_PRIM_RECTANGLES then 2
  else 0

/-- Storage-index resolution for one vertex slot: direct when there is no
index buffer, else the index-buffer entry (8- or 16-bit, already resolved
to its numeric value). -/
def vertexIndex (indices : Option (ℤ → ℕ)) (k : ℤ) : ℤ :=
  match indices with
  | none => k
  | some f => (f k : ℤ)

/-- The inner loop of SubmitPrimitive: assemble the vtcs_per_prim vertices
of the group starting at flat position vtx. -/
def assembleGroup (g : GPUState) (fmt : VertexFormat) (verts : ℤ → DecodedVertex)
    (indices : Option (ℤ → ℕ)) (vtx : ℤ) (step : ℕ) : List VertexData :=
  (List.range step).map fun i : ℕ =>
    assembleVertex g fmt verts (vertexIndex indices (vtx + (i : ℤ)))

/-- A call forwarded to the external clipper. -/
inductive DispatchCall where
  | triangle (v0 v1 v2 : VertexData)
  | quad (v0 v1 : VertexData)
  deriving DecidableEq

/-- The switch at the end of each group iteration: only GE_PRIM_TRIANGLES
reaches Clipper::ProcessTriangle and only GE_PRIM_RECTANGLES reaches
Clipper::ProcessQuad; every other primitive type falls through. -/
def dispatchGroup (prim_type : ℕ) (group : List VertexData) : List DispatchCall :=
  if prim_type = GE_PRIM_TRIANGLES then
    match group with
    | [a, b, c] => [DispatchCall.triangle a b c]
    | _ => []
  else if prim_type = GE_PRIM_RECTANGLES then
    match group with
    | [a, b] => [DispatchCall.quad a b]
    | _ => []
  else []

/-- The outer vertex loop of SubmitPrimitive: for (vtx = 0; vtx < vertex_count;
vtx += vtcs_per_prim). The C loop can fail to terminate (vtcs_per_prim may be
0), so the model consumes explicit fuel; none models a loop that has not
reached its exit condition within the given fuel. -/
def submitLoop (g : GPUState) (fmt : VertexFormat) (verts : ℤ → DecodedVertex)
    (indices : Option (ℤ → ℕ)) (prim_type : ℕ) (step : ℕ) (count : ℤ) :
    ℕ → ℤ → List VertexData → List DispatchCall →
    Option (List VertexData × List DispatchCall)
  | 0, _, _, _ => none
  | fuel + 1, vtx, accV, accC =>
    if vtx < count then
      submitLoop g fmt verts indices prim_type step count fuel (vtx + step)
        (accV ++ assembleGroup g fmt verts indices vtx step)
        (accC ++ dispatchGroup prim_type (assembleGroup g fmt verts indices vtx step))
    else
      some (accV, accC)

/-- Model of GetIndexBounds (GLES/VertexDecoder, not among the sources).
Modelled from the spec: it reports the lowest and highest vertex index the
index buffer references for the draw call. -/
def GetIndexBounds (f : ℤ → ℕ) (count : ℤ) : ℕ × ℕ :=
  (List.range count.toNat).foldl (fun b i => (min b.1 (f i), max b.2 (f i))) (65535, 0)

/-- Everything SubmitPrimitive hands to external collaborators: the index
range [decodeLower, decodeUpper] passed to the decoder, the vertices it
assembled, and the calls it forwarded to the clipper. -/
structure SubmitResult where
  decodeLower : ℕ
  decodeUpper : ℕ
  assembled : List VertexData
  calls : List DispatchCall
  deriving DecidableEq

/-- SubmitPrimitive: decode bounds (the no-index upper bound is
vertex_count - 1 stored into a u16, hence reduced mod 2^16), then the
grouped vertex loop. The decoder itself is external; its inputs are
recorded in the result. A none result models a call that never returns. -/
def TransformUnit.SubmitPrimitive (g : GPUState) (fmt : VertexFormat)
    (verts : ℤ → DecodedVertex) (indices : Option (ℤ → ℕ))
    (prim_type : ℕ) (vertex_count : ℤ) (fuel : ℕ) : Option SubmitResult :=
  match submitLoop g fmt verts indices prim_type (vtcsPerPrim prim_type)
      vertex_count fuel 0 [] [] with
  | none => none
  | some r =>
    match indices with
    | none => some ⟨0, ((vertex_count - 1) % 65536).toNat, r.1, r.2⟩
    | some f => some ⟨(GetIndexBounds f vertex_count).1, (GetIndexBounds f vertex_count).2, r.1, r.2⟩

/-- Worker count chosen by the ThreadPool constructor: non-positive requests
clamp to 1, requests above 8 clamp to 8, anything else is kept. -/
def ThreadPool.clampNumThreads (numThreads : ℤ) : ℕ :=
  if numThreads ≤ 0 then 1
  else if 8 < numThreads then 8
  else numThreads.toNat

/-- The dispatch loop of ThreadPool::ParallelLoop: starting from s, hand out
n chunks of the given size to workers 0..n-1 (the worker receiving the i-th
list entry is worker i), advancing s by chunk each time; returns the chunk
list and the final value of s. -/
def dispatchChunksLoop (chunk : ℤ) : ℤ → ℕ → List (ℤ × ℤ) × ℤ
  | s, 0 => ([], s)
  | s, n + 1 =>
    ((s, s + chunk) :: (dispatchChunksLoop chunk (s + chunk) n).1,
     (dispatchChunksLoop chunk (s + chunk) n).2)

/-- The work ParallelLoop distributes: the sub-ranges handed to workers (in
worker order) and the range the calling thread runs inline. -/
structure LoopExec where
  dispatched : List (ℤ × ℤ)
  inlineRange : ℤ × ℤ
  deriving DecidableEq

/-- ThreadPool::ParallelLoop with numThreads_ workers: ranges smaller than
numThreads_ * 2 run inline in one piece; otherwise numThreads_ - 1 chunks of
size range / numThreads_ are dispatched and the final chunk, ending at
upper, runs inline on the caller. -/
def ThreadPool.ParallelLoop (numThreads_ : ℕ) (lower upper : ℤ) : LoopExec :=
  if (numThreads_ : ℤ) * 2 ≤ upper - lower then
    { dispatched :=
        (dispatchChunksLoop ((upper - lower) / (numThreads_ : ℤ)) lower (numThreads_ - 1)).1,
      inlineRange :=
        ((dispatchChunksLoop ((upper - lower) / (numThreads_ : ℤ)) lower (numThreads_ - 1)).2,
         upper) }
  else
    { dispatched := [], inlineRange := (lower, upper) }

/-- A list of half-open integer ranges chained end to end from a to b: each
range starts where its predecessor ended, is non-descending, and the last
one ends at b. -/
def ChunkChain : ℤ → List (ℤ × ℤ) → ℤ → Prop
  | a, [], b => a = b
  | a, c :: cs, b => c.1 = a ∧ a ≤ c.2 ∧ ChunkChain c.2 cs b

/-- A GPU state snapshot with all registers zero and all mode flags off,
used as the base of concrete test states. -/
def gZero : GPUState :=
  { worldMatrix := fun _ => 0, viewMatrix := fun _ => 0, projMatrix := fun _ => 0,
    viewportx1 := 0, viewportx2 := 0, viewporty1 := 0, viewporty2 := 0,
    viewportz1 := 0, viewportz2 := 0, offsetx := 0, offsety := 0,
    materialdiffuse := 0, materialalpha := 0, textureMapEnable := 0,
    modeClear := false, modeThrough := false }

/-- A vertex format declaring no optional attribute. -/
def fmtNone : VertexFormat := ⟨false, false, false, false⟩

/-- An all-zero decoded vertex record. -/
def vtxZero : DecodedVertex :=
  { pos := (0, 0, 0), uv := (0, 0), nrm := (0, 0, 0),
    color0 := (0, 0, 0, 0), color1 := (0, 0, 0) }

/-- C3: for every screen coordinate (a u32 value) and every drawing-offset
register value, each ScreenToDrawing output component equals
((coord - (offset mod 2^16)) mod 2^32) / 16 mod 2^10 computed in exact
integer arithmetic with a non-negative remainder, i.e. the subtraction
wraps modulo 2^32 when the masked offset exceeds the coordinate; nothing is
clamped or saturated. -/
theorem screenToDrawing_wraps_u32 (g : GPUState) (cx cy : ℕ) (cz : ℚ)
    (hx : cx < 4294967296) (hy : cy < 4294967296) :
    (TransformUnit.ScreenToDrawing g ⟨(cx : ℚ), (cy : ℚ), cz⟩).x =
      (((((cx : ℤ) - ((g.offsetx % 65536 : ℕ) : ℤ)) % 4294967296) / 16 % 1024).toNat : ℚ) ∧
    (TransformUnit.ScreenToDrawing g ⟨(cx : ℚ), (cy : ℚ), cz⟩).y =
      (((((cy : ℤ) - ((g.offsety % 65536 : ℕ) : ℤ)) % 4294967296) / 16 % 1024).toNat : ℚ) := by
  have hto : ∀ c : ℕ, c < 4294967296 → toU32 (c : ℚ) = c := by
    intro c hc
    unfold toU32 truncQ
    rw [if_pos (Nat.cast_nonneg c), Int.floor_natCast]
    omega
  have key : ∀ c m : ℕ, c < 4294967296 → m < 65536 →
      u32sub c m / 16 % 1024 = ((((c : ℤ) - (m : ℤ)) % 4294967296) / 16 % 1024).toNat := by
    intro c m hc hm
    unfold u32sub
    omega
  refine ⟨?_, ?_⟩
  · show ((u32sub (toU32 (cx : ℚ)) (g.offsetx % 65536) / 16 % 1024 : ℕ) : ℚ) = _
    rw [hto cx hx, key cx _ hx (Nat.mod_lt _ (by norm_num))]
  · show ((u32sub (toU32 (cy : ℚ)) (g.offsety % 65536) / 16 % 1024 : ℕ) : ℚ) = _
    rw [hto cy hy, key cy _ hy (Nat.mod_lt _ (by norm_num))]

/-- Witness for C3 at a wrapping input: coordinate 4, drawing offset 40, so
the u32 subtraction wraps to 2^32 - 36 and the component comes out as 1021,
not a clamped 0. -/
theorem screenToDrawing_wraps_u32_witness :
    (4 < 4294967296 ∧ 5 < 4294967296) ∧
    (TransformUnit.ScreenToDrawing { gZero with offsetx := 40 }
      ⟨(4 : ℚ), (5 : ℚ), 0⟩).x = 1021 := by
  refine ⟨by decide, ?_⟩
  exact ((screenToDrawing_wraps_u32 { gZero with offsetx := 40 } 4 5 0
    (by decide) (by decide)).1).trans (by decide)

/-- The texturecoords field of an assembled vertex is governed solely by the
clear-mode flag, the textureMapEnable register and the format's UV bit. -/
theorem assembleVertex_texturecoords (g : GPUState) (fmt : VertexFormat)
    (verts : ℤ → DecodedVertex) (idx : ℤ) :
    (assembleVertex g fmt verts idx).texturecoords =
      (if !g.modeClear && (g.textureMapEnable != 0) && fmt.hasUV
       then some (verts idx).uv else none) := by
  cases hm : g.modeThrough <;> simp [assembleVertex, hm, Lighting.Process]

/-- The color0 field of an assembled vertex: scaled read when declared,
material fallback otherwise. -/
theorem assembleVertex_color0 (g : GPUState) (fmt : VertexFormat)
    (verts : ℤ → DecodedVertex) (idx : ℤ) :
    (assembleVertex g fmt verts idx).color0 =
      (if fmt.hasColor0 then
        (truncQ ((verts idx).color0.1 * 255), truncQ ((verts idx).color0.2.1 * 255),
         truncQ ((verts idx).color0.2.2.1 * 255), truncQ ((verts idx).color0.2.2.2 * 255))
      else
        ((g.materialdiffuse % 256 : ℕ), (g.materialdiffuse / 256 % 256 : ℕ),
         (g.materialdiffuse / 65536 % 256 : ℕ), (g.materialalpha % 256 : ℕ))) := by
  cases hm : g.modeThrough <;> simp [assembleVertex, hm, Lighting.Process]

/-- The color1 field of an assembled vertex: when declared, the source fills
it by scaling the channels the ReadColor0 accessor returns, i.e. the decoded
color0 field; otherwise opaque black. -/
theorem assembleVertex_color1 (g : GPUState) (fmt : VertexFormat)
    (verts : ℤ → DecodedVertex) (idx : ℤ) :
    (assembleVertex g fmt verts idx).color1 =
      (if fmt.hasColor1 then
        (truncQ ((verts idx).color0.1 * 255), truncQ ((verts idx).color0.2.1 * 255),
         truncQ ((verts idx).color0.2.2.1 * 255))
      else (0, 0, 0)) := by
  cases hm : g.modeThrough <;> simp [assembleVertex, hm, Lighting.Process]

/-- The lighting stage runs on an assembled vertex exactly when through mode
is off. -/
theorem assembleVertex_lit (g : GPUState) (fmt : VertexFormat)
    (verts : ℤ → DecodedVertex) (idx : ℤ) :
    (assembleVertex g fmt verts idx).lit = !g.modeThrough := by
  cases hm : g.modeThrough <;> simp [assembleVertex, hm, Lighting.Process]

/-- C4: with through mode enabled the assembled vertex's drawing coordinate
is exactly the decoded position's (x, y), for every state snapshot (hence
independent of all matrix and viewport registers); the transform chain is
not executed (world, view and clip positions and the world normal keep
their defaults) and lighting is not invoked. -/
theorem through_mode_bypass (g : GPUState) (fmt : VertexFormat)
    (verts : ℤ → DecodedVertex) (idx : ℤ) (h : g.modeThrough = true) :
    (assembleVertex g fmt verts idx).drawpos = ⟨(verts idx).pos.1, (verts idx).pos.2.1⟩ ∧
    (assembleVertex g fmt verts idx).worldpos = none ∧
    (assembleVertex g fmt verts idx).viewpos = none ∧
    (assembleVertex g fmt verts idx).clippos = none ∧
    (assembleVertex g fmt verts idx).worldnormal = none ∧
    (assembleVertex g fmt verts idx).lit = false := by
  simp [assembleVertex, h]

/-- Witness for C4: a through-mode state with a fractional position; the
drawing coordinate reproduces it exactly. -/
theorem through_mode_bypass_witness :
    ({ gZero with modeThrough := true } : GPUState).modeThrough = true ∧
    (assembleVertex { gZero with modeThrough := true } fmtNone
      (fun _ => { vtxZero with pos := (7/2, 5, 9) }) 0).drawpos = ⟨7/2, 5⟩ := by
  refine ⟨rfl, ?_⟩
  exact ((through_mode_bypass { gZero with modeThrough := true } fmtNone
    (fun _ => { vtxZero with pos := (7/2, 5, 9) }) 0 rfl).1).trans rfl

/-- Masking a natural number with 0xFF is the remainder mod 256. -/
theorem nat_and_255_eq_mod (n : ℕ) : n &&& 255 = n % 256 := by
  have h8 := Nat.and_pow_two_sub_one_eq_mod n 8
  norm_num at h8
  exact h8

/-- C7: when the vertex format declares no color0, the assembled color0 is
exactly the unpacking of the material registers: (materialdiffuse and 0xFF,
(materialdiffuse shifted right 8) and 0xFF, (materialdiffuse shifted right
16) and 0xFF, materialalpha and 0xFF). -/
theorem color0_material_fallback (g : GPUState) (fmt : VertexFormat)
    (verts : ℤ → DecodedVertex) (idx : ℤ) (h : fmt.hasColor0 = false) :
    (assembleVertex g fmt verts idx).color0 =
      (((g.materialdiffuse &&& 255 : ℕ) : ℤ),
       (((g.materialdiffuse >>> 8) &&& 255 : ℕ) : ℤ),
       (((g.materialdiffuse >>> 16) &&& 255 : ℕ) : ℤ),
       ((g.materialalpha &&& 255 : ℕ) : ℤ)) := by
  have hand := nat_and_255_eq_mod
  have hs8 : g.materialdiffuse >>> 8 = g.materialdiffuse / 256 := by
    rw [Nat.shiftRight_eq_div_pow]
  have hs16 : g.materialdiffuse >>> 16 = g.materialdiffuse / 65536 := by
    rw [Nat.shiftRight_eq_div_pow]
  rw [assembleVertex_color0, if_neg (by simp [h]), hand, hand, hand, hand, hs8, hs16]

/-- Witness for C7: material diffuse 0x123456 and alpha 0x78 unpack to the
channel values (0x56, 0x34, 0x12, 0x78). -/
theorem color0_material_fallback_witness :
    (fmtNone.hasColor0 = false) ∧
    (assembleVertex { gZero with materialdiffuse := 1193046, materialalpha := 120 }
      fmtNone (fun _ => vtxZero) 0).color0 = (86, 52, 18, 120) := by
  refine ⟨rfl, ?_⟩
  have h := color0_material_fallback
    { gZero with materialdiffuse := 1193046, materialalpha := 120 }
    fmtNone (fun _ => vtxZero) 0 rfl
  rw [h]
  simp [nat_and_255_eq_mod]

/-- C8: the texturecoords field is assigned (from the decoded UV) exactly
when clear mode is off, texture mapping is enabled and the format declares
UV; in every other case it keeps its default value. -/
theorem texturecoords_condition (g : GPUState) (fmt : VertexFormat)
    (verts : ℤ → DecodedVertex) (idx : ℤ) :
    ((g.modeClear = false ∧ g.textureMapEnable ≠ 0 ∧ fmt.hasUV = true) →
      (assembleVertex g fmt verts idx).texturecoords = some (verts idx).uv) ∧
    (¬(g.modeClear = false ∧ g.textureMapEnable ≠ 0 ∧ fmt.hasUV = true) →
      (assembleVertex g fmt verts idx).texturecoords = none) := by
  rw [assembleVertex_texturecoords]
  constructor
  · rintro ⟨h1, h2, h3⟩
    rw [if_pos]
    simp [h1, h2, h3]
  · intro hne
    rw [if_neg]
    simp only [Bool.and_eq_true, Bool.not_eq_true', bne_iff_ne, ne_eq]
    intro hcon
    exact hne ⟨hcon.1.1, hcon.1.2, hcon.2⟩

/-- Witness for C8, both directions: with texturing on, clear off and UV
declared the UV is stored; flipping the UV bit off leaves the default. -/
theorem texturecoords_condition_witness :
    (({ gZero with textureMapEnable := 1 } : GPUState).modeClear = false ∧
      ({ gZero with textureMapEnable := 1 } : GPUState).textureMapEnable ≠ 0 ∧
      (⟨true, false, false, false⟩ : VertexFormat).hasUV = true) ∧
    (assembleVertex { gZero with textureMapEnable := 1 } ⟨true, false, false, false⟩
      (fun _ => { vtxZero with uv := (3, 4) }) 0).texturecoords = some (3, 4) ∧
    (assembleVertex { gZero with textureMapEnable := 1 } fmtNone
      (fun _ => { vtxZero with uv := (3, 4) }) 0).texturecoords = none := by
  refine ⟨⟨rfl, by decide, rfl⟩, ?_, ?_⟩
  · exact ((texturecoords_condition { gZero with textureMapEnable := 1 }
      ⟨true, false, false, false⟩ (fun _ => { vtxZero with uv := (3, 4) }) 0).1
      ⟨rfl, by decide, rfl⟩).trans rfl
  · exact (texturecoords_condition { gZero with textureMapEnable := 1 } fmtNone
      (fun _ => { vtxZero with uv := (3, 4) }) 0).2 (by simp [fmtNone])

/-- C1: the source populates color1 through the ReadColor0 accessor (the
copy-paste defect the spec flags): at a vertex whose decoded color0 field
is (1, 0, 0, 1) and whose color1 field is (0, 1, 0), the assembled color1
is (255, 0, 0), the scaled color0 channels, whereas scaling the actual
color1 field - what the claim's ReadColor1 accessor would produce - gives
(0, 255, 0). -/
theorem color1_populated_from_color0_accessor :
    (assembleVertex { gZero with modeThrough := true } ⟨false, false, true, true⟩
      (fun _ => { vtxZero with color0 := (1, 0, 0, 1), color1 := (0, 1, 0) }) 0).color1
      = (255, 0, 0) ∧
    (truncQ ((0 : ℚ) * 255), truncQ ((1 : ℚ) * 255), truncQ ((0 : ℚ) * 255))
      = ((0 : ℤ), 255, 0) := by
  constructor
  · rw [assembleVertex_color1]
    norm_num [truncQ, vtxZero]
  · norm_num [truncQ]

/-- With a per-group step of 0 and a vertex still ahead, the outer loop of
SubmitPrimitive never reaches its exit condition: vtx advances by 0 each
iteration, so every amount of fuel is exhausted. -/
theorem submitLoop_zero_step_diverges (g : GPUState) (fmt : VertexFormat)
    (verts : ℤ → DecodedVertex) (indices : Option (ℤ → ℕ)) (prim_type : ℕ)
    (count : ℤ) :
    ∀ (fuel : ℕ) (vtx : ℤ) (accV : List VertexData) (accC : List DispatchCall),
      vtx < count →
      submitLoop g fmt verts indices prim_type 0 count fuel vtx accV accC = none := by
  intro fuel
  induction fuel with
  | zero =>
    intro vtx accV accC h
    rfl
  | succ n ih =>
    intro vtx accV accC h
    rw [submitLoop, if_pos h]
    rw [show vtx + ((0 : ℕ) : ℤ) = vtx by simp]
    exact ih vtx _ _ h

/-- C2 (evaluation at the failing input): submitting the unsupported
primitive type GE_PRIM_LINE_STRIP with vertex count 1 never terminates:
vtcs_per_prim keeps its initial value 0, the loop increment vtx += 0 never
advances, and no amount of fuel lets the model return. -/
theorem submitPrimitive_unsupported_diverges (g : GPUState) (fmt : VertexFormat)
    (verts : ℤ → DecodedVertex) (indices : Option (ℤ → ℕ)) (fuel : ℕ) :
    TransformUnit.SubmitPrimitive g fmt verts indices GE_PRIM_LINE_STRIP 1 fuel = none := by
  have hstep : vtcsPerPrim GE_PRIM_LINE_STRIP = 0 := rfl
  have hloop := submitLoop_zero_step_diverges g fmt verts indices GE_PRIM_LINE_STRIP
    1 fuel 0 [] [] (by norm_num)
  rw [TransformUnit.SubmitPrimitive, hstep, hloop]

/-- C9: with vertex count 0 and no index buffer, the decode upper bound
vertex_count - 1 stored into a u16 wraps to 65535, so the external decoder
is asked to decode the index range [0, 65535] even though the vertex loop
itself runs zero iterations and nothing is assembled or forwarded. -/
theorem submitPrimitive_zero_count_decodes_65536 (g : GPUState) (fmt : VertexFormat)
    (verts : ℤ → DecodedVertex) (prim_type : ℕ) (fuel : ℕ) (hf : 1 ≤ fuel) :
    TransformUnit.SubmitPrimitive g fmt verts none prim_type 0 fuel =
      some ⟨0, 65535, [], []⟩ := by
  obtain ⟨n, rfl⟩ : ∃ n, fuel = n + 1 := ⟨fuel - 1, by omega⟩
  rw [TransformUnit.SubmitPrimitive, submitLoop, if_neg (by norm_num)]
  norm_num
  decide

/-- Witness for C9 at fuel 1. -/
theorem submitPrimitive_zero_count_decodes_65536_witness :
    1 ≤ 1 ∧
    TransformUnit.SubmitPrimitive gZero fmtNone (fun _ => vtxZero) none
      GE_PRIM_TRIANGLES 0 1 = some ⟨0, 65535, [], []⟩ :=
  ⟨le_refl 1, submitPrimitive_zero_count_decodes_65536 gZero fmtNone
    (fun _ => vtxZero) GE_PRIM_TRIANGLES 1 (le_refl 1)⟩

/-- Number of iterations the outer loop still performs when it stands at
position vtx: the count of positions vtx, vtx+step, ... strictly below
count (for a positive step). -/
def groupsFrom (count vtx : ℤ) (step : ℕ) : ℤ :=
  if vtx < count then (count - vtx - 1) / step + 1 else 0

/-- Number of groups the outer loop processes for a whole draw call. -/
def numGroups (count : ℤ) (step : ℕ) : ℤ := groupsFrom count 0 step

/-- One loop iteration consumes exactly one group. -/
theorem groupsFrom_step (count vtx : ℤ) (step : ℕ) (h1 : 1 ≤ step) (h2 : vtx < count) :
    groupsFrom count vtx step = 1 + groupsFrom count (vtx + step) step := by
  unfold groupsFrom
  rw [if_pos h2]
  have hs : ((step : ℤ)) ≠ 0 := by
    have : (0 : ℤ) < step := by exact_mod_cast h1
    omega
  by_cases h3 : vtx + (step : ℤ) < count
  · rw [if_pos h3]
    have key : count - vtx - 1 = (count - (vtx + (step : ℤ)) - 1) + 1 * step := by ring
    rw [key, Int.add_mul_ediv_right _ _ hs]
    ring
  · rw [if_neg h3]
    have h4 : 0 ≤ count - vtx - 1 := by omega
    have h5 : count - vtx - 1 < (step : ℤ) := by omega
    rw [Int.ediv_eq_zero_of_lt h4 h5]
    omega

/-- Characterization of the outer loop for a primitive type whose groups are
never forwarded: the dispatch list is untouched, the loop assembles exactly
step vertices per remaining group, and every vertex it appends went through
the lighting stage precisely when through mode is off. -/
theorem submitLoop_assembles_no_dispatch (g : GPUState) (fmt : VertexFormat)
    (verts : ℤ → DecodedVertex) (indices : Option (ℤ → ℕ)) (prim_type : ℕ)
    (step : ℕ) (count : ℤ) (hstep : 1 ≤ step)
    (hnd : ∀ gr : List VertexData, dispatchGroup prim_type gr = []) :
    ∀ (fuel : ℕ) (vtx : ℤ) (accV : List VertexData) (accC : List DispatchCall)
      (out : List VertexData × List DispatchCall),
      submitLoop g fmt verts indices prim_type step count fuel vtx accV accC = some out →
      out.2 = accC ∧
      (out.1.length : ℤ) = accV.length + step * groupsFrom count vtx step ∧
      (∀ v ∈ out.1, v ∈ accV ∨ v.lit = !g.modeThrough) := by
  intro fuel
  induction fuel with
  | zero =>
    intro vtx accV accC out h
    exact absurd h (by rw [submitLoop]; exact Option.noConfusion)
  | succ n ih =>
    intro vtx accV accC out h
    rw [submitLoop] at h
    by_cases hv : vtx < count
    · rw [if_pos hv] at h
      obtain ⟨h1, h2, h3⟩ := ih _ _ _ _ h
      refine ⟨by rw [h1, hnd, List.append_nil], ?_, ?_⟩
      · have hlen : (assembleGroup g fmt verts indices vtx step).length = step := by
          rw [assembleGroup, List.length_map, List.length_range]
        rw [h2, List.length_append, hlen, groupsFrom_step count vtx step hstep hv]
        push_cast
        ring
      · intro v hv'
        rcases h3 v hv' with hmem | hl
        · rcases List.mem_append.mp hmem with h' | h'
          · exact Or.inl h'
          · right
            rw [assembleGroup] at h'
            obtain ⟨i, hi, rfl⟩ := List.mem_map.mp h'
            exact assembleVertex_lit g fmt verts _
        · exact Or.inr hl
    · rw [if_neg hv] at h
      obtain rfl := Option.some.inj h
      refine ⟨rfl, ?_, fun v hv' => Or.inl hv'⟩
      rw [groupsFrom, if_neg hv]
      push_cast
      ring

/-- C10: for the points and lines primitive types, whenever SubmitPrimitive
returns, it has assembled every group in full - vtcs_per_prim vertices per
group, each run through lighting when through mode is off - yet its
dispatch list is empty: the clipper consumers are reached only by the
triangles and rectangles switch cases, so every point or line group is
dropped after assembly. -/
theorem points_lines_assembled_not_forwarded (g : GPUState) (fmt : VertexFormat)
    (verts : ℤ → DecodedVertex) (indices : Option (ℤ → ℕ)) (prim_type : ℕ)
    (vertex_count : ℤ) (fuel : ℕ) (out : SubmitResult)
    (hp : prim_type = GE_PRIM_POINTS ∨ prim_type = GE_PRIM_LINES)
    (h : TransformUnit.SubmitPrimitive g fmt verts indices prim_type vertex_count fuel
      = some out) :
    out.calls = [] ∧
    (out.assembled.length : ℤ) =
      vtcsPerPrim prim_type * numGroups vertex_count (vtcsPerPrim prim_type) ∧
    (g.modeThrough = false → ∀ v ∈ out.assembled, v.lit = true) := by
  have hstep : 1 ≤ vtcsPerPrim prim_type := by
    rcases hp with rfl | rfl <;> decide
  have hnd : ∀ gr : List VertexData, dispatchGroup prim_type gr = [] := by
    intro gr
    rcases hp with rfl | rfl <;> rfl
  rw [TransformUnit.SubmitPrimitive] at h
  rcases hL : submitLoop g fmt verts indices prim_type (vtcsPerPrim prim_type)
      vertex_count fuel 0 [] [] with _ | r
  · rw [hL] at h
    exact absurd h Option.noConfusion
  · rw [hL] at h
    obtain ⟨h1, h2, h3⟩ := submitLoop_assembles_no_dispatch g fmt verts indices prim_type
      (vtcsPerPrim prim_type) vertex_count hstep hnd fuel 0 [] [] r hL
    have hfields : out.assembled = r.1 ∧ out.calls = r.2 := by
      rcases indices with _ | f
      · obtain rfl := Option.some.inj h
        exact ⟨rfl, rfl⟩
      · obtain rfl := Option.some.inj h
        exact ⟨rfl, rfl⟩
    refine ⟨by rw [hfields.2, h1], ?_, ?_⟩
    · rw [hfields.1, h2, numGroups]
      simp
    · intro hth v hv
      rcases h3 v (by rw [hfields.1] at hv; exact hv) with hmem | hl
      · exact absurd hmem (List.not_mem_nil v)
      · rw [hl, hth]
        rfl

/-- Witness for C10: two line groups out of three vertices (the trailing
partial group still assembles a second vertex), nothing dispatched. -/
theorem points_lines_assembled_not_forwarded_witness :
    (GE_PRIM_LINES = GE_PRIM_POINTS ∨ GE_PRIM_LINES = GE_PRIM_LINES) ∧
    (TransformUnit.SubmitPrimitive { gZero with modeThrough := true } fmtNone
        (fun _ => vtxZero) none GE_PRIM_LINES 3 4).map
      (fun o => (o.calls, o.assembled.length)) = some ([], 4) := by
  refine ⟨Or.inr rfl, ?_⟩
  obtain ⟨out, hout⟩ : ∃ o, TransformUnit.SubmitPrimitive { gZero with modeThrough := true }
      fmtNone (fun _ => vtxZero) none GE_PRIM_LINES 3 4 = some o := ⟨_, rfl⟩
  obtain ⟨h1, h2, h3⟩ := points_lines_assembled_not_forwarded
    { gZero with modeThrough := true } fmtNone (fun _ => vtxZero) none GE_PRIM_LINES
    3 4 out (Or.inr rfl) hout
  rw [hout, Option.map_some']
  have hlen : out.assembled.length = 4 := by
    have h4 : ((vtcsPerPrim GE_PRIM_LINES : ℤ)) * numGroups 3 (vtcsPerPrim GE_PRIM_LINES)
        = 4 := by decide
    omega
  rw [h1, hlen]

/-- A chained list of ranges runs left to right. -/
theorem chunkChain_mono :
    ∀ (l : List (ℤ × ℤ)) (a b : ℤ), ChunkChain a l b → a ≤ b := by
  intro l
  induction l with
  | nil =>
    intro a b h
    exact le_of_eq h
  | cons c cs ih =>
    intro a b h
    obtain ⟨h1, h2, h3⟩ := h
    exact le_trans h2 (ih c.2 b h3)

/-- A point is covered by exactly one range of a chain when it lies in the
chain's overall span, and by none otherwise: chained ranges partition their
span with no overlap and no gaps. -/
theorem chunkChain_countP (x : ℤ) :
    ∀ (l : List (ℤ × ℤ)) (a b : ℤ), ChunkChain a l b →
      (l.countP fun c => decide (c.1 ≤ x ∧ x < c.2)) =
        if a ≤ x ∧ x < b then 1 else 0 := by
  intro l
  induction l with
  | nil =>
    intro a b h
    rw [List.countP_nil]
    obtain rfl : a = b := h
    split_ifs with hx
    · omega
    · rfl
  | cons c cs ih =>
    intro a b h
    obtain ⟨h1, h2, h3⟩ := h
    have hb := chunkChain_mono cs c.2 b h3
    rw [List.countP_cons, ih c.2 b h3]
    subst h1
    simp only [decide_eq_true_eq]
    split_ifs <;> omega

/-- Appending a final range that starts where the chain ends keeps it a
chain. -/
theorem chunkChain_append_last :
    ∀ (l : List (ℤ × ℤ)) (a m b : ℤ), ChunkChain a l m → m ≤ b →
      ChunkChain a (l ++ [(m, b)]) b := by
  intro l
  induction l with
  | nil =>
    intro a m b h hmb
    obtain rfl : a = m := h
    exact ⟨rfl, hmb, rfl⟩
  | cons c cs ih =>
    intro a m b h hmb
    obtain ⟨h1, h2, h3⟩ := h
    exact ⟨h1, h2, ih c.2 m b h3 hmb⟩

/-- The dispatch loop hands out exactly n chunks of the given size, ends at
s + n * chunk, and (for a non-negative chunk) forms a chain from s to its
end. -/
theorem dispatchChunksLoop_spec (chunk : ℤ) :
    ∀ (n : ℕ) (s : ℤ),
      (dispatchChunksLoop chunk s n).2 = s + n * chunk ∧
      (dispatchChunksLoop chunk s n).1.length = n ∧
      (∀ c ∈ (dispatchChunksLoop chunk s n).1, c.2 - c.1 = chunk) ∧
      (0 ≤ chunk →
        ChunkChain s (dispatchChunksLoop chunk s n).1 (dispatchChunksLoop chunk s n).2) := by
  intro n
  induction n with
  | zero =>
    intro s
    refine ⟨by simp [dispatchChunksLoop], rfl, ?_, ?_⟩
    · intro c hc
      exact absurd hc (List.not_mem_nil c)
    · intro _
      rfl
  | succ m ih =>
    intro s
    obtain ⟨i1, i2, i3, i4⟩ := ih (s + chunk)
    refine ⟨?_, ?_, ?_, ?_⟩
    · show (dispatchChunksLoop chunk (s + chunk) m).2 = s + (m + 1 : ℕ) * chunk
      rw [i1]
      push_cast
      ring
    · show ((s, s + chunk) :: (dispatchChunksLoop chunk (s + chunk) m).1).length = m + 1
      rw [List.length_cons, i2]
    · intro c hc
      rcases List.mem_cons.mp hc with rfl | hmem
      · ring
      · exact i3 c hmem
    · intro hch
      exact ⟨rfl, by omega, i4 hch⟩

/-- C5: with numThreads_ workers, a range smaller than 2 * numThreads_ is
run inline as the single range (lower, upper) with nothing dispatched;
otherwise exactly numThreads_ - 1 chunks, each of size
(upper - lower) / numThreads_, are dispatched (the i-th list entry to
worker i, all distinct), the final chunk ending at upper runs inline on the
caller, and the dispatched chunks together with the inline chunk cover each
index of [lower, upper) exactly once - no overlap, no gap. -/
theorem parallelLoop_partition (numThreads_ : ℕ) (lower upper : ℤ) (hn : 1 ≤ numThreads_) :
    (upper - lower < (numThreads_ : ℤ) * 2 →
      (ThreadPool.ParallelLoop numThreads_ lower upper).dispatched = [] ∧
      (ThreadPool.ParallelLoop numThreads_ lower upper).inlineRange = (lower, upper)) ∧
    ((numThreads_ : ℤ) * 2 ≤ upper - lower →
      (ThreadPool.ParallelLoop numThreads_ lower upper).dispatched.length = numThreads_ - 1 ∧
      (∀ c ∈ (ThreadPool.ParallelLoop numThreads_ lower upper).dispatched,
        c.2 - c.1 = (upper - lower) / (numThreads_ : ℤ)) ∧
      (∀ x : ℤ,
        (((ThreadPool.ParallelLoop numThreads_ lower upper).dispatched ++
            [(ThreadPool.ParallelLoop numThreads_ lower upper).inlineRange]).countP
          fun c => decide (c.1 ≤ x ∧ x < c.2)) =
        if lower ≤ x ∧ x < upper then 1 else 0)) := by
  constructor
  · intro hlt
    rw [ThreadPool.ParallelLoop, if_neg (by omega)]
    exact ⟨rfl, rfl⟩
  · intro hge
    have hnz : ((numThreads_ : ℤ)) ≠ 0 := by
      have : (0 : ℤ) < numThreads_ := by exact_mod_cast hn
      omega
    have hpos : (0 : ℤ) < numThreads_ := by exact_mod_cast hn
    have hchunk2 : 2 ≤ (upper - lower) / (numThreads_ : ℤ) := by
      rw [Int.le_ediv_iff_mul_le hpos]
      omega
    have hchunk0 : 0 ≤ (upper - lower) / (numThreads_ : ℤ) := by omega
    obtain ⟨d1, d2, d3, d4⟩ :=
      dispatchChunksLoop_spec ((upper - lower) / (numThreads_ : ℤ)) (numThreads_ - 1) lower
    have hmul : (upper - lower) / (numThreads_ : ℤ) * numThreads_ ≤ upper - lower :=
      Int.ediv_mul_le (upper - lower) hnz
    have hend : (dispatchChunksLoop ((upper - lower) / (numThreads_ : ℤ)) lower
        (numThreads_ - 1)).2 ≤ upper := by
      rw [d1]
      have hc1 : ((numThreads_ - 1 : ℕ) : ℤ) = (numThreads_ : ℤ) - 1 := by
        push_cast [hn]
        ring
      rw [hc1]
      nlinarith [hchunk0, hpos]
    rw [ThreadPool.ParallelLoop, if_pos hge]
    refine ⟨d2, d3, ?_⟩
    intro x
    have hchain := chunkChain_append_last _ lower _ upper (d4 hchunk0) hend
    exact chunkChain_countP x _ lower upper hchain

/-- Witness for C5 with 2 workers on [0, 10): one chunk dispatched and every
point of the range, e.g. 7, covered exactly once. -/
theorem parallelLoop_partition_witness :
    (1 ≤ 2 ∧ ((2 : ℕ) : ℤ) * 2 ≤ (10 : ℤ) - 0) ∧
    (ThreadPool.ParallelLoop 2 0 10).dispatched.length = 1 ∧
    (((ThreadPool.ParallelLoop 2 0 10).dispatched ++
        [(ThreadPool.ParallelLoop 2 0 10).inlineRange]).countP
      fun c => decide (c.1 ≤ (7 : ℤ) ∧ (7 : ℤ) < c.2)) = 1 := by
  have h := (parallelLoop_partition 2 0 10 (by decide)).2 (by decide)
  exact ⟨⟨by decide, by decide⟩, h.1, (h.2.2 7).trans (by decide)⟩

/-- C6: the ThreadPool constructor clamps the worker count to [1, 8]:
non-positive requests give exactly 1 worker, requests above 8 give exactly
8, and anything in between is kept, so the pool size always lies in
[1, 8]. -/
theorem threadPool_clamp (numThreads : ℤ) :
    (numThreads ≤ 0 → ThreadPool.clampNumThreads numThreads = 1) ∧
    (8 < numThreads → ThreadPool.clampNumThreads numThreads = 8) ∧
    (0 < numThreads → numThreads ≤ 8 →
      (ThreadPool.clampNumThreads numThreads : ℤ) = numThreads) ∧
    1 ≤ ThreadPool.clampNumThreads numThreads ∧
    ThreadPool.clampNumThreads numThreads ≤ 8 := by
  unfold ThreadPool.clampNumThreads
  split_ifs with h1 h2 <;>
    refine ⟨?_, ?_, ?_, ?_, ?_⟩ <;> intros <;> omega

/-- Witness for C6 at the spec's probe points: 0 clamps to 1, 100 clamps to
8, 5 is kept. -/
theorem threadPool_clamp_witness :
    ThreadPool.clampNumThreads 0 = 1 ∧
    ThreadPool.clampNumThreads 100 = 8 ∧
    (ThreadPool.clampNumThreads 5 : ℤ) = 5 :=
  ⟨(threadPool_clamp 0).1 (by decide),
   (threadPool_clamp 100).2.1 (by decide),
   (threadPool_clamp 5).2.2.1 (by decide) (by decide)⟩
